import Mathlib

/-!
Verification development for the cairn-fuse tracer filesystem
(src/cairn-fuse/src/main.rs).  The Rust source is shallowly embedded:
pure functions become Lean functions on Nat bit patterns, the stateful
handlers become explicit state-passing functions over a model of the
in-memory inode table and of the consumed real-filesystem surface, and
panicking paths (unwrap on a missing table entry, unimplemented! on an
unknown file type) are modelled by Option, with none standing for a
process abort.
-/

set_option maxHeartbeats 1000000

namespace Cairn

/-! ### Access control (check_access in main.rs) -/

/-- libc F_OK: test for existence only. -/
def F_OK : Nat := 0
/-- libc X_OK. -/
def X_OK : Nat := 1
/-- libc W_OK. -/
def W_OK : Nat := 2
/-- libc R_OK. -/
def R_OK : Nat := 4

/-- Arithmetic (sign-extending) right shift of a 32-bit two's-complement
bit pattern, as performed by Rust's shift operator on i32.  A pattern
p ≥ 2^31 denotes a negative i32, so the vacated top s bits are filled
with ones. -/
def asr32 (p s : Nat) : Nat :=
  if p < 2 ^ 31 then p >>> s else (p >>> s) ||| ((2 ^ s - 1) <<< (32 - s))

/-- check_access from main.rs.  Every argument carries the 32-bit pattern
of the corresponding Rust value (u32 for the file fields and the
requester ids, the i32 access mask as its two's-complement pattern).
The source's cast Wrapping(file_mode as i32) leaves the bit pattern
unchanged; the i32 subtraction a - (a & b) never wraps because
a &&& b ≤ a holds on patterns, so plain Nat subtraction is its exact
pattern semantics. -/
def check_access (file_uid file_gid file_mode uid gid access_mask : Nat) : Bool :=
  -- F_OK tests for existence of file
  if access_mask = F_OK then
    true
  else
    -- root is allowed to read & write anything
    if uid = 0 then
      -- root only allowed to exec if one of the X bits is set
      let am0 := access_mask &&& X_OK
      let am1 := am0 - (am0 &&& asr32 file_mode 6)
      let am2 := am1 - (am1 &&& asr32 file_mode 3)
      let am3 := am2 - (am2 &&& file_mode)
      am3 = 0
    else
      if uid = file_uid then
        access_mask - (access_mask &&& asr32 file_mode 6) = 0
      else if gid = file_gid then
        access_mask - (access_mask &&& asr32 file_mode 3) = 0
      else
        access_mask - (access_mask &&& file_mode) = 0

/-! Helper lemmas about the bit-pattern arithmetic of check_access. -/

/-- For a small left operand the sign-extension bits of an arithmetic
shift are invisible: only the low three bits matter. -/
theorem and_asr32 (a p s : Nat) (ha : a < 8) (hs : 3 + s ≤ 32) :
    a &&& asr32 p s = a &&& (p >>> s) := by
  unfold asr32
  split
  · rfl
  · apply Nat.eq_of_testBit_eq
    intro i
    simp only [Nat.testBit_and, Nat.testBit_or, Nat.testBit_shiftLeft,
      Nat.testBit_two_pow_sub_one]
    by_cases hi : i < 3
    · have hns : ¬ (i ≥ 32 - s) := by omega
      simp [hns]
    · have h8 : (8 : Nat) ≤ 2 ^ i := by
        calc (8 : Nat) = 2 ^ 3 := by norm_num
        _ ≤ 2 ^ i := Nat.pow_le_pow_right (by norm_num) (by omega)
      have hz : a.testBit i = false := Nat.testBit_lt_two_pow (lt_of_lt_of_le ha h8)
      simp [hz]

/-- Bitwise elimination leaves nothing outstanding exactly when every
requested bit is matched. -/
theorem sub_and_eq_zero_iff (a b : Nat) : a - (a &&& b) = 0 ↔ a &&& b = a := by
  have h := Nat.and_le_left (n := a) (m := b)
  omega

/-- Restricting the matched bits to the three-bit triad changes nothing
when the requested mask is itself below 8. -/
theorem and_and_seven (m x : Nat) (hm : m < 8) : m &&& (x &&& 7) = m &&& x := by
  apply Nat.eq_of_testBit_eq
  intro i
  simp only [Nat.testBit_and]
  by_cases hi : i < 3
  · have h7 : (7 : Nat) = 2 ^ 3 - 1 := by norm_num
    rw [h7, Nat.testBit_two_pow_sub_one]
    simp [hi]
  · have h8 : (8 : Nat) ≤ 2 ^ i := by
      calc (8 : Nat) = 2 ^ 3 := by norm_num
      _ ≤ 2 ^ i := Nat.pow_le_pow_right (by norm_num) (by omega)
    have hz : m.testBit i = false := Nat.testBit_lt_two_pow (lt_of_lt_of_le hm h8)
    simp [hz]

/-- testBit restated through shifted parity, the shape the elimination
chain produces. -/
theorem testBit_eq_shift_mod (x k : Nat) :
    x.testBit k = decide ((x >>> k) % 2 = 1) := by
  rw [Nat.testBit_to_div_mod, Nat.shiftRight_eq_div_pow]

/-- Claim C1: check_access(file_uid, file_gid, file_mode, uid, gid, mask)
returns true iff mask is F_OK, or uid is 0 and (mask requests no execute
bit, or at least one execute bit is set in any of the owner/group/other
triads of file_mode), or, for a non-root requester, every bit of mask is
present in the single triad selected by identity (owner triad if
uid = file_uid, else group triad if gid = file_gid, else the other
triad).  In particular, for uid 0 and a file_mode with no execute bit
set anywhere, requesting X_OK fails while R_OK and W_OK succeed.  The
mask ranges over the access masks the protocol requests (combinations of
the R_OK, W_OK, X_OK bits, i.e. mask < 8). -/
theorem check_access_spec :
    (∀ file_uid file_gid file_mode uid gid mask : Nat, mask < 8 →
      (check_access file_uid file_gid file_mode uid gid mask = true ↔
        (mask = F_OK ∨
         (uid = 0 ∧ (mask &&& X_OK = 0 ∨ file_mode.testBit 6 = true ∨
            file_mode.testBit 3 = true ∨ file_mode.testBit 0 = true)) ∨
         (uid ≠ 0 ∧
           mask &&& ((if uid = file_uid then file_mode >>> 6
                      else if gid = file_gid then file_mode >>> 3
                      else file_mode) &&& 7) = mask)))) ∧
    (∀ file_uid file_gid file_mode gid : Nat,
      file_mode.testBit 6 = false → file_mode.testBit 3 = false →
      file_mode.testBit 0 = false →
      check_access file_uid file_gid file_mode 0 gid X_OK = false ∧
      check_access file_uid file_gid file_mode 0 gid R_OK = true ∧
      check_access file_uid file_gid file_mode 0 gid W_OK = true) := by
  have main : ∀ file_uid file_gid file_mode uid gid mask : Nat, mask < 8 →
      (check_access file_uid file_gid file_mode uid gid mask = true ↔
        (mask = F_OK ∨
         (uid = 0 ∧ (mask &&& X_OK = 0 ∨ file_mode.testBit 6 = true ∨
            file_mode.testBit 3 = true ∨ file_mode.testBit 0 = true)) ∨
         (uid ≠ 0 ∧
           mask &&& ((if uid = file_uid then file_mode >>> 6
                      else if gid = file_gid then file_mode >>> 3
                      else file_mode) &&& 7) = mask))) := by
    intro fu fg fm u g m hm
    unfold check_access
    by_cases hm0 : m = F_OK
    · simp [hm0]
    · rw [if_neg hm0]
      by_cases hu : u = 0
      · rw [if_pos hu]
        dsimp only
        rw [show m &&& X_OK = m % 2 from Nat.and_one_is_mod m]
        rw [and_asr32 (m % 2) fm 6 (by omega) (by omega),
            and_asr32 _ fm 3 (by omega) (by omega)]
        simp only [hu, hm0, ne_eq, not_true_eq_false, false_and, or_false,
          false_or, true_and, testBit_eq_shift_mod,
          (Nat.shiftRight_zero : fm >>> 0 = fm)]
        rcases Nat.mod_two_eq_zero_or_one m with h2 | h2
        · simp [h2]
        · rw [h2, Nat.one_and_eq_mod_two]
          rcases Nat.mod_two_eq_zero_or_one (fm >>> 6) with h6 | h6
          · rw [h6, Nat.sub_zero, Nat.one_and_eq_mod_two]
            rcases Nat.mod_two_eq_zero_or_one (fm >>> 3) with h3 | h3
            · rw [h3, Nat.sub_zero, Nat.one_and_eq_mod_two]
              rcases Nat.mod_two_eq_zero_or_one fm with h0 | h0
              · simp [h0, h6, h3, X_OK]
              · simp [h0, h6, h3]
            · simp [h3, h6, Nat.zero_and]
          · simp [h6, Nat.zero_and]
      · rw [if_neg hu]
        simp only [hm0, hu, ne_eq, not_false_eq_true, true_and, false_or,
          false_and, or_false]
        by_cases hfu : u = fu
        · rw [if_pos hfu, if_pos hfu, and_and_seven _ _ hm, decide_eq_true_eq,
            sub_and_eq_zero_iff, and_asr32 m fm 6 hm (by omega)]
        · rw [if_neg hfu, if_neg hfu]
          by_cases hfg : g = fg
          · rw [if_pos hfg, if_pos hfg, and_and_seven _ _ hm, decide_eq_true_eq,
              sub_and_eq_zero_iff, and_asr32 m fm 3 hm (by omega)]
          · rw [if_neg hfg, if_neg hfg, and_and_seven _ _ hm, decide_eq_true_eq,
              sub_and_eq_zero_iff]
  refine ⟨main, ?_⟩
  intro fu fg fm g h6 h3 h0
  refine ⟨?_, ?_, ?_⟩
  · have h := main fu fg fm 0 g X_OK (by decide)
    rcases hb : check_access fu fg fm 0 g X_OK with _ | _
    · rfl
    · exfalso
      have := h.mp hb
      simp [F_OK, X_OK, h6, h3, h0] at this
  · exact (main fu fg fm 0 g R_OK (by decide)).mpr
      (Or.inr (Or.inl ⟨rfl, Or.inl (by decide)⟩))
  · exact (main fu fg fm 0 g W_OK (by decide)).mpr
      (Or.inr (Or.inl ⟨rfl, Or.inl (by decide)⟩))

/-- Witness for check_access_spec: the owner of a mode 0o640 file may
request R_OK|W_OK (mask 6), and for root on a mode 0o600 file an X_OK
request is denied. -/
theorem check_access_spec_witness :
    check_access 1000 100 416 1000 100 6 = true ∧
    check_access 1000 100 384 0 5 1 = false :=
  ⟨(check_access_spec.1 1000 100 416 1000 100 6 (by decide)).mpr
      (Or.inr (Or.inr ⟨by decide, by decide⟩)),
    (check_access_spec.2 1000 100 384 5 (by decide) (by decide) (by decide)).1⟩

/-! ### Read length computation (read handler in main.rs) -/

/-- Bit pattern of Rust's offset as u64 cast of an i64 offset. -/
def u64ofI64 (o : Int) : Nat := (o % (2 ^ 64 : Int)).toNat

/-- Effective read length computed by the read handler:
min(size, file_size.saturating_sub(offset as u64) as u32).  Nat
subtraction is exactly u64 saturating_sub; the mod 2^32 is the as u32
cast. -/
def read_size (file_size : Nat) (offset : Int) (size : Nat) : Nat :=
  min size ((file_size - u64ofI64 offset) % 2 ^ 32)

/-- Bytes returned by a successful read: read_size bytes taken at byte
position offset-as-u64 of the real file content (read_exact_at). -/
def read_result (content : List Nat) (offset : Int) (size : Nat) : List Nat :=
  (content.drop (u64ofI64 offset)).take (read_size content.length offset size)

/-- The buffer a read replies with has exactly read_size bytes: the
requested slice never runs past the end of the content. -/
theorem length_read_result (c : List Nat) (off : Int) (sz : Nat) :
    (read_result c off sz).length = read_size c.length off sz := by
  unfold read_result
  rw [List.length_take, List.length_drop]
  have h1 : read_size c.length off sz ≤ (c.length - u64ofI64 off) % 2 ^ 32 :=
    min_le_right _ _
  have h2 : (c.length - u64ofI64 off) % 2 ^ 32 ≤ c.length - u64ofI64 off :=
    Nat.mod_le _ _
  omega

/-- Claim C2, counterexample: on a real file of length 2^32 the handler
computes an effective read length of min(size, (L - offset) truncated to
u32) = 0 for offset 0 and size 1, while the claim demands
min(size, L - offset) = 1 byte.  By length_read_result the replied
buffer would hold 0 bytes, not 1. -/
theorem read_size_trunc_counterexample :
    read_size (2 ^ 32) 0 1 = 0 ∧ min 1 ((2 ^ 32 : Nat) - Int.toNat 0) = 1 := by
  refine ⟨?_, by norm_num⟩
  unfold read_size u64ofI64
  norm_num

/-- Claim C2 as amended: for every content, offset and size the replied
buffer holds exactly min(size, (L ∸ offset-as-u64) mod 2^32) bytes — the
effective length saturates at zero and is truncated to u32 by the cast —
and the read never extends past end-of-file.  Whenever offset is a
non-negative i64 and the clipped length L ∸ offset fits in a u32, this
is the claimed min(size, L - offset).  In the §8 scenario, a read of
size 10 at offset 0 of a 2-byte file returns exactly the 2 bytes. -/
theorem read_spec_amended :
    (∀ (content : List Nat) (offset : Int) (size : Nat),
      (read_result content offset size).length =
        min size ((content.length - u64ofI64 offset) % 2 ^ 32) ∧
      ((read_result content offset size).length = 0 ∨
        u64ofI64 offset + (read_result content offset size).length ≤
          content.length) ∧
      (0 ≤ offset → offset < 2 ^ 63 →
        content.length - offset.toNat < 2 ^ 32 →
        (read_result content offset size).length =
          min size (content.length - offset.toNat))) ∧
    read_result [104, 105] 0 10 = [104, 105] := by
  refine ⟨fun c off sz => ?_, by decide⟩
  have hlen := length_read_result c off sz
  have h1 : read_size c.length off sz ≤ (c.length - u64ofI64 off) % 2 ^ 32 :=
    min_le_right _ _
  have h2 : (c.length - u64ofI64 off) % 2 ^ 32 ≤ c.length - u64ofI64 off :=
    Nat.mod_le _ _
  refine ⟨by rw [hlen]; rfl, by omega, fun hnn hlt hfit => ?_⟩
  have hcast : u64ofI64 off = off.toNat := by
    unfold u64ofI64
    rw [Int.emod_eq_of_lt hnn (by omega)]
  rw [hlen]
  unfold read_size
  rw [hcast, Nat.mod_eq_of_lt hfit]

/-- Witness for read_spec_amended: reading 5 bytes at offset 1 of a
3-byte file returns exactly min(5, 3 - 1) = 2 bytes. -/
theorem read_spec_amended_witness :
    (read_result [1, 2, 3] 1 5).length =
      min 5 (([1, 2, 3] : List Nat).length - (1 : Int).toNat) :=
  (read_spec_amended.1 [1, 2, 3] 1 5).2.2 (by decide) (by decide) (by decide)

/-! ### Data model: file kinds, attribute records, the inode table, and
the consumed real-filesystem surface.

Real paths are modelled as component lists; Path::join appends one
component.  The real filesystem is a flat association list from paths to
metadata; the models of the std::fs operations the handlers consume
follow the documented behavior of that external surface (symlink
traversal in fs::metadata, no "." or ".." entries from fs::read_dir,
and so on). -/

/-- Protocol-reserved root inode number (fuser::FUSE_ROOT_ID). -/
def FUSE_ROOT_ID : Nat := 1

/-- Errno values used by the handlers. -/
def EPERM : Nat := 1
def ENOENT : Nat := 2
def EIO : Nat := 5
def EACCES : Nat := 13
def EEXIST : Nat := 17
def ENOTDIR : Nat := 20
def EISDIR : Nat := 21
def EINVAL : Nat := 22
def ENOSYS : Nat := 38
def ENOTEMPTY : Nat := 39

/-- enum FileKind from main.rs. -/
inductive FileKind where
  | file
  | directory
  | symlink
deriving DecidableEq, Repr

/-- Real path, as the list of its components. -/
abbrev RPath := List String

/-- Metadata record of one real filesystem entry (fs::Metadata).  The
target field is the link target and is meaningful only when the mode
carries the S_IFLNK type bits. -/
structure RealMeta where
  ino : Nat
  uid : Nat
  gid : Nat
  mode : Nat
  atime : Int × Nat
  mtime : Int × Nat
  len : Nat
  nlinks : Nat
  blksize : Nat
  blocks : Nat
  rdev : Nat
  target : RPath := []
deriving DecidableEq, Repr

/-- The mirrored real directory tree: an association list from real
paths to metadata. -/
abbrev RealFS := List (RPath × RealMeta)

def lookupFS : RealFS → RPath → Option RealMeta
  | [], _ => none
  | (q, m) :: rest, p => if q = p then some m else lookupFS rest p

def eraseFS (fs : RealFS) (p : RPath) : RealFS :=
  fs.filter fun e => e.1 ≠ p

def insertFS (fs : RealFS) (p : RPath) (m : RealMeta) : RealFS :=
  (p, m) :: eraseFS fs p

/-- Path resolution following symlinks, as fs::metadata and path-based
operations perform it; the fuel models the kernel's ELOOP bound. -/
def resolvePath : Nat → RealFS → RPath → Option RPath
  | 0, _, _ => none
  | fuel + 1, fs, p =>
    match lookupFS fs p with
    | none => none
    | some m =>
      if m.mode &&& 61440 = 40960 then resolvePath fuel fs m.target
      else some p

/-- Metadata of the entry a path resolves to (fs::metadata: symlinks are
followed). -/
def resolveMeta (fs : RealFS) (p : RPath) : Option RealMeta :=
  (resolvePath 41 fs p).bind (lookupFS fs)

/-- as_file_kind from main.rs: derives the kind from the S_IFMT type
bits; none models the unimplemented! panic on any other type. -/
def as_file_kind (mode : Nat) : Option FileKind :=
  let m := mode &&& 61440
  if m = 32768 then some .file
  else if m = 40960 then some .symlink
  else if m = 16384 then some .directory
  else none

/-- struct InodeAttributes from main.rs. -/
structure InodeAttributes where
  ino : Nat
  uid : Nat
  gid : Nat
  mode : Nat
  atime : Int × Nat
  mtime : Int × Nat
  kind : FileKind
  len : Nat
  nlinks : Nat
  blksize : Nat
  blocks : Nat
  rdev : Nat
  real_path : RPath
deriving DecidableEq, Repr

/-- The From (fs::Metadata, String) conversion for InodeAttributes; none
models the as_file_kind panic on an unsupported type. -/
def InodeAttributes.fromMeta (m : RealMeta) (path : RPath) :
    Option InodeAttributes :=
  (as_file_kind m.mode).map fun k =>
    { ino := m.ino, uid := m.uid, gid := m.gid, mode := m.mode,
      atime := m.atime, mtime := m.mtime, kind := k, len := m.len,
      nlinks := m.nlinks, blksize := m.blksize, blocks := m.blocks,
      rdev := m.rdev, real_path := path }

/-- The inode table (the attrs BTreeMap of TracerFS): association list
with first-match lookup; insertion prepends, so the newest binding
wins, matching map insertion. -/
abbrev Table := List (Nat × InodeAttributes)

def lookupT : Table → Nat → Option InodeAttributes
  | [], _ => none
  | (k, a) :: rest, i => if k = i then some a else lookupT rest i

def insertT (tbl : Table) (k : Nat) (a : InodeAttributes) : Table :=
  (k, a) :: tbl

def removeT (tbl : Table) (k : Nat) : Table :=
  tbl.filter fun e => e.1 ≠ k

/-- get_path from main.rs; none models the .unwrap() panic when the
parent inode has no table entry. -/
def get_path (tbl : Table) (parent : Nat) (name : String) : Option RPath :=
  (lookupT tbl parent).map fun a => a.real_path ++ [name]

/-! ### Models of the consumed real-filesystem operations -/

/-- fs::metadata as the handlers call it. -/
def fs_metadata (fs : RealFS) (p : RPath) : Except Nat RealMeta :=
  match resolveMeta fs p with
  | some m => .ok m
  | none => .error ENOENT

/-- fs::set_permissions: replaces the low permission bits of the entry
the path resolves to; NotFound when it does not resolve. -/
def set_permissionsFS (fs : RealFS) (p : RPath) (mode : Nat) :
    RealFS × Except Nat Unit :=
  match resolvePath 41 fs p with
  | none => (fs, .error ENOENT)
  | some q =>
    match lookupFS fs q with
    | none => (fs, .error ENOENT)
    | some m =>
      (insertFS fs q { m with mode := (m.mode &&& 61440) ||| (mode &&& 4095) },
        .ok ())

/-- std::os::unix::fs::chown: rewrites owner and/or group where given. -/
def chownFS (fs : RealFS) (p : RPath) (uid gid : Option Nat) :
    RealFS × Except Nat Unit :=
  match resolvePath 41 fs p with
  | none => (fs, .error ENOENT)
  | some q =>
    match lookupFS fs q with
    | none => (fs, .error ENOENT)
    | some m =>
      (insertFS fs q { m with uid := uid.getD m.uid, gid := gid.getD m.gid },
        .ok ())

/-- OpenOptions::new().write(true).open: yields the resolved path;
NotFound is the only open failure arising in this model (the source
maps it to ENOENT; its other errno translations have no trigger here). -/
def openWrite (fs : RealFS) (p : RPath) : Except Nat RPath :=
  match resolvePath 41 fs p with
  | none => .error ENOENT
  | some q => .ok q

/-- File::set_len: truncates or extends to the requested size. -/
def set_lenFS (fs : RealFS) (q : RPath) (size : Nat) :
    RealFS × Except Nat Unit :=
  match lookupFS fs q with
  | none => (fs, .error ENOENT)
  | some m => (insertFS fs q { m with len := size }, .ok ())

/-- utime::set_file_times: sets both timestamps, seconds precision. -/
def set_file_timesFS (fs : RealFS) (p : RPath) (asec msec : Int) :
    RealFS × Except Nat Unit :=
  match resolvePath 41 fs p with
  | none => (fs, .error ENOENT)
  | some q =>
    match lookupFS fs q with
    | none => (fs, .error ENOENT)
    | some m =>
      (insertFS fs q { m with atime := (asec, 0), mtime := (msec, 0) }, .ok ())

/-- The regular file (0o100644) the real filesystem creates for
File::create, with the inode and owner it assigns. -/
def freshFileMeta (newIno cuid cgid : Nat) : RealMeta :=
  { ino := newIno, uid := cuid, gid := cgid, mode := 33188,
    atime := (0, 0), mtime := (0, 0), len := 0, nlinks := 1,
    blksize := 4096, blocks := 0, rdev := 0, target := [] }

/-- The directory (0o40755) the real filesystem creates for
fs::create_dir. -/
def freshDirMeta (newIno cuid cgid : Nat) : RealMeta :=
  { ino := newIno, uid := cuid, gid := cgid, mode := 16877,
    atime := (0, 0), mtime := (0, 0), len := 0, nlinks := 2,
    blksize := 4096, blocks := 0, rdev := 0, target := [] }

/-- The symlink (0o120777) the real filesystem creates for
std::os::unix::fs::symlink. -/
def freshSymMeta (newIno cuid cgid : Nat) (link : RPath) : RealMeta :=
  { ino := newIno, uid := cuid, gid := cgid, mode := 41471,
    atime := (0, 0), mtime := (0, 0), len := 0, nlinks := 1,
    blksize := 4096, blocks := 0, rdev := 0, target := link }

/-- File::create: always creates (or truncates to) a regular file; the
fresh inode number and creator ids are chosen by the real filesystem
and passed in by the caller of the model. -/
def file_createFS (fs : RealFS) (p : RPath) (newIno cuid cgid : Nat) :
    RealFS × Except Nat Unit :=
  match lookupFS fs p with
  | some m => (insertFS fs p { m with len := 0 }, .ok ())
  | none => (insertFS fs p (freshFileMeta newIno cuid cgid), .ok ())

/-- fs::create_dir: fails AlreadyExists on an existing entry, else
creates a directory. -/
def create_dirFS (fs : RealFS) (p : RPath) (newIno cuid cgid : Nat) :
    RealFS × Except Nat Unit :=
  match lookupFS fs p with
  | some _ => (fs, .error EEXIST)
  | none => (insertFS fs p (freshDirMeta newIno cuid cgid), .ok ())

/-- std::os::unix::fs::symlink: fails AlreadyExists on an existing
entry, else creates a symlink pointing at the target. -/
def symlinkFS (fs : RealFS) (p : RPath) (link : RPath)
    (newIno cuid cgid : Nat) : RealFS × Except Nat Unit :=
  match lookupFS fs p with
  | some _ => (fs, .error EEXIST)
  | none => (insertFS fs p (freshSymMeta newIno cuid cgid link), .ok ())

/-- fs::remove_file: removes the named entry itself (symlinks are not
followed); EISDIR on a directory. -/
def remove_fileFS (fs : RealFS) (p : RPath) : RealFS × Except Nat Unit :=
  match lookupFS fs p with
  | none => (fs, .error ENOENT)
  | some m =>
    if m.mode &&& 61440 = 16384 then (fs, .error EISDIR)
    else (eraseFS fs p, .ok ())

/-- Direct children of a directory path, in stable list order.  Models
fs::read_dir, which by its documented contract returns no "." or ".."
entries. -/
def childrenFS (fs : RealFS) (dir : RPath) : List (String × RealMeta) :=
  fs.filterMap fun e =>
    if e.1.length = dir.length + 1 ∧ e.1.take dir.length = dir then
      some (e.1.getLastD "", e.2)
    else none

/-- fs::remove_dir: the named entry must be an empty directory. -/
def remove_dirFS (fs : RealFS) (p : RPath) : RealFS × Except Nat Unit :=
  match lookupFS fs p with
  | none => (fs, .error ENOENT)
  | some m =>
    if m.mode &&& 61440 = 16384 then
      if childrenFS fs p = [] then (eraseFS fs p, .ok ())
      else (fs, .error ENOTEMPTY)
    else (fs, .error ENOTDIR)

/-- fs::rename: moves the single named entry (children of a renamed
directory are not tracked by this flat model; no claim depends on
them). -/
def renameFS (fs : RealFS) (src dst : RPath) : RealFS × Except Nat Unit :=
  match lookupFS fs src with
  | none => (fs, .error ENOENT)
  | some m => (insertFS (eraseFS fs src) dst m, .ok ())

/-- fs::hard_link: the new path names the same underlying file (same
inode). -/
def hard_linkFS (fs : RealFS) (src dst : RPath) : RealFS × Except Nat Unit :=
  match resolveMeta fs src with
  | none => (fs, .error ENOENT)
  | some m =>
    match lookupFS fs dst with
    | some _ => (fs, .error EEXIST)
    | none => (insertFS fs dst m, .ok ())

/-! ### Replies and the shared reply helpers -/

/-- A reply sent through the fuser reply sink. -/
inductive ReplyOut where
  | entryR (a : InodeAttributes)
  | attrR (a : InodeAttributes)
  | ok
  | error (e : Nat)
deriving DecidableEq, Repr

/-- Which Reply variant handle_metadata_on_change was handed. -/
inductive ReplyKind where
  | entry
  | attr
  | empty
deriving DecidableEq, Repr

/-- handle_metadata_on_change from main.rs: on a successful real
operation, re-reads the metadata at the path, re-inserts the record
keyed by the freshly read inode, and replies with the new record (or
ok for an empty reply); any failure is replied as the corresponding
error.  none models the conversion panic on an unsupported file type. -/
def handle_metadata_on_change (fs : RealFS) (tbl : Table) (path : RPath)
    (result : Except Nat Unit) (rk : ReplyKind) : Option (Table × ReplyOut) :=
  match result with
  | .error e => some (tbl, .error e)
  | .ok _ =>
    match resolveMeta fs path with
    | none => some (tbl, .error ENOENT)
    | some meta =>
      match InodeAttributes.fromMeta meta path with
      | none => none
      | some a =>
        some (insertT tbl a.ino a,
          match rk with
          | .entry => .entryR a
          | .attr => .attrR a
          | .empty => .ok)

/-- handle_metadata_on_removal from main.rs: on a successful removal
with a successful pre-removal metadata read, drops the table entry
keyed by that metadata's inode and replies ok; otherwise replies the
error and leaves the table alone. -/
def handle_metadata_on_removal (tbl : Table) (metadata : Except Nat RealMeta)
    (result : Except Nat Unit) : Table × ReplyOut :=
  match result with
  | .ok _ =>
    match metadata with
    | .ok m => (removeT tbl m.ino, .ok)
    | .error e => (tbl, .error e)
  | .error e => (tbl, .error e)

/-! ### Handlers -/

/-- lookup_name from main.rs; none models the get_path unwrap panic and
the conversion panic. -/
def lookup_name (fs : RealFS) (tbl : Table) (parent : Nat) (name : String) :
    Option (Except Nat InodeAttributes) :=
  match get_path tbl parent name with
  | none => none
  | some path =>
    match resolveMeta fs path with
    | none => some (.error ENOENT)
    | some m =>
      match InodeAttributes.fromMeta m path with
      | none => none
      | some a => some (.ok a)

/-- lookup handler: on success inserts the freshly read record and
replies it as an entry. -/
def lookup (fs : RealFS) (tbl : Table) (parent : Nat) (name : String) :
    Option (Table × ReplyOut) :=
  (lookup_name fs tbl parent name).map fun r =>
    match r with
    | .ok a => (insertT tbl a.ino a, .entryR a)
    | .error e => (tbl, .error e)

/-- getattr handler: replies the cached record verbatim. -/
def getattr (tbl : Table) (ino : Nat) : ReplyOut :=
  match lookupT tbl ino with
  | some a => .attrR a
  | none => .error ENOENT

/-- fuser::TimeOrNow. -/
inductive TimeOrNow where
  | specificTime (secs : Int) (nsecs : Nat)
  | now
deriving DecidableEq, Repr

/-- The optional change arguments of a setattr request (the classes the
handler recognises). -/
structure SetattrArgs where
  mode : Option Nat := none
  uid : Option Nat := none
  gid : Option Nat := none
  size : Option Nat := none
  atime : Option TimeOrNow := none
  mtime : Option TimeOrNow := none
deriving DecidableEq, Repr

/-- setattr from main.rs.  req_uid is the requester uid and nowSecs the
current time (time_now).  The outer Option models panics; the inner
Option ReplyOut is the reply the handler issues — none when the handler
runs off the end without replying at all. -/
def setattr (fs : RealFS) (tbl : Table) (req_uid : Nat) (ino : Nat)
    (args : SetattrArgs) (nowSecs : Int) :
    Option (RealFS × Table × Option ReplyOut) :=
  match lookupT tbl ino with
  | none => some (fs, tbl, some (.error ENOENT))
  | some attrs =>
    match args.mode with
    | some mode =>
      if req_uid ≠ 0 ∧ req_uid ≠ attrs.uid then
        some (fs, tbl, some (.error EPERM))
      else
        let r := set_permissionsFS fs attrs.real_path mode
        (handle_metadata_on_change r.1 tbl attrs.real_path r.2 .attr).map
          fun x => (r.1, x.1, some x.2)
    | none =>
      if args.uid.isSome ∨ args.gid.isSome then
        let r := chownFS fs attrs.real_path args.uid args.gid
        (handle_metadata_on_change r.1 tbl attrs.real_path r.2 .attr).map
          fun x => (r.1, x.1, some x.2)
      else
        match args.size with
        | some size =>
          match openWrite fs attrs.real_path with
          | .error e => some (fs, tbl, some (.error e))
          | .ok q =>
            let r := set_lenFS fs q size
            (handle_metadata_on_change r.1 tbl attrs.real_path r.2 .attr).map
              fun x => (r.1, x.1, some x.2)
        | none =>
          match args.atime with
          | some t =>
            let asec :=
              match t with
              | .specificTime s _ => s
              | .now => nowSecs
            let r := set_file_timesFS fs attrs.real_path asec attrs.mtime.1
            (handle_metadata_on_change r.1 tbl attrs.real_path r.2 .attr).map
              fun x => (r.1, x.1, some x.2)
          | none =>
            match args.mtime with
            | some t =>
              let msec :=
                match t with
                | .specificTime s _ => s
                | .now => nowSecs
              let r := set_file_timesFS fs attrs.real_path attrs.atime.1 msec
              (handle_metadata_on_change r.1 tbl attrs.real_path r.2 .attr).map
                fun x => (r.1, x.1, some x.2)
            | none => some (fs, tbl, none)

/-- mknod from main.rs.  newIno, cuid, cgid stand for the identifiers
the real filesystem assigns to a created entry; none models the
get_path unwrap panic and the conversion panics. -/
def mknod (fs : RealFS) (tbl : Table) (parent : Nat) (name : String)
    (mode : Nat) (newIno cuid cgid : Nat) :
    Option (RealFS × Table × ReplyOut) :=
  match get_path tbl parent name with
  | none => none
  | some path =>
    let file_type := mode &&& 61440
    if file_type ≠ 32768 ∧ file_type ≠ 40960 ∧ file_type ≠ 16384 then
      some (fs, tbl, .error ENOSYS)
    else
      match lookup_name fs tbl parent name with
      | none => none
      | some (.ok _) => some (fs, tbl, .error EEXIST)
      | some (.error _) =>
        let r := file_createFS fs path newIno cuid cgid
        (handle_metadata_on_change r.1 tbl path r.2 .entry).map
          fun x => (r.1, x.1, x.2)

/-- mkdir from main.rs (the requested mode is not forwarded:
fs::create_dir takes none). -/
def mkdir (fs : RealFS) (tbl : Table) (parent : Nat) (name : String)
    (newIno cuid cgid : Nat) : Option (RealFS × Table × ReplyOut) :=
  match get_path tbl parent name with
  | none => none
  | some path =>
    let r := create_dirFS fs path newIno cuid cgid
    (handle_metadata_on_change r.1 tbl path r.2 .entry).map
      fun x => (r.1, x.1, x.2)

/-- unlink from main.rs: reads the metadata first, removes the real
file, then reconciles through handle_metadata_on_removal. -/
def unlink (fs : RealFS) (tbl : Table) (parent : Nat) (name : String) :
    Option (RealFS × Table × ReplyOut) :=
  match get_path tbl parent name with
  | none => none
  | some path =>
    let metadata := fs_metadata fs path
    let r := remove_fileFS fs path
    let x := handle_metadata_on_removal tbl metadata r.2
    some (r.1, x.1, x.2)

/-- rmdir from main.rs. -/
def rmdir (fs : RealFS) (tbl : Table) (parent : Nat) (name : String) :
    Option (RealFS × Table × ReplyOut) :=
  match get_path tbl parent name with
  | none => none
  | some path =>
    let metadata := fs_metadata fs path
    let r := remove_dirFS fs path
    let x := handle_metadata_on_removal tbl metadata r.2
    some (r.1, x.1, x.2)

/-- symlink handler from main.rs. -/
def symlink (fs : RealFS) (tbl : Table) (parent : Nat) (name : String)
    (link : RPath) (newIno cuid cgid : Nat) :
    Option (RealFS × Table × ReplyOut) :=
  match get_path tbl parent name with
  | none => none
  | some path =>
    let r := symlinkFS fs path link newIno cuid cgid
    (handle_metadata_on_change r.1 tbl path r.2 .entry).map
      fun x => (r.1, x.1, x.2)

/-- rename from main.rs: refresh is keyed at the destination path. -/
def rename (fs : RealFS) (tbl : Table) (parent : Nat) (name : String)
    (newparent : Nat) (newname : String) :
    Option (RealFS × Table × ReplyOut) :=
  match get_path tbl parent name with
  | none => none
  | some path =>
    match get_path tbl newparent newname with
    | none => none
    | some newpath =>
      let r := renameFS fs path newpath
      (handle_metadata_on_change r.1 tbl newpath r.2 .empty).map
        fun x => (r.1, x.1, x.2)

/-- link from main.rs: the source path is the linked inode's real path
joined with an empty name component. -/
def link (fs : RealFS) (tbl : Table) (ino : Nat) (newparent : Nat)
    (newname : String) : Option (RealFS × Table × ReplyOut) :=
  match get_path tbl ino "" with
  | none => none
  | some path =>
    match get_path tbl newparent newname with
    | none => none
    | some newpath =>
      let r := hard_linkFS fs path newpath
      (handle_metadata_on_change r.1 tbl newpath r.2 .entry).map
        fun x => (r.1, x.1, x.2)

/-! ### readdir -/

/-- Reply of the readdir handler. -/
inductive DirReply where
  | err (e : Nat)
  | list (l : List (Nat × Int × FileKind × String))
deriving DecidableEq, Repr

/-- Entry-collection loop of readdir: (inode, kind, name) triples from
the real directory scan, DirEntry::metadata taken without following
symlinks; none models the as_file_kind panic. -/
def collectEntries : List (String × RealMeta) →
    Option (List (Nat × FileKind × String))
  | [] => some []
  | (n, m) :: rest =>
    match as_file_kind m.mode, collectEntries rest with
    | some k, some r => some ((m.ino, k, n) :: r)
    | _, _ => none

/-- Reply-buffer loop of readdir: entries with enumeration index below
the requested offset are skipped, each added entry is tagged with
offset + index + 1, and the loop breaks when the reply buffer is full
(cap is how many more entries it accepts). -/
def addLoop : List (Nat × FileKind × String) → Nat → Int → Nat →
    List (Nat × Int × FileKind × String)
  | [], _, _, _ => []
  | e :: rest, i, off, cap =>
    if off ≤ (i : Int) then
      match cap with
      | 0 => []
      | cap' + 1 => (e.1, off + i + 1, e.2.1, e.2.2) :: addLoop rest (i + 1) off cap'
    else addLoop rest (i + 1) off cap

/-- readdir from main.rs; none models the as_file_kind panic on an
entry of unsupported type. -/
def readdir (fs : RealFS) (tbl : Table) (ino : Nat) (offset : Int)
    (cap : Nat) : Option DirReply :=
  match lookupT tbl ino with
  | none => some (.err ENOENT)
  | some attrs =>
    if attrs.kind = .directory then
      match collectEntries (childrenFS fs attrs.real_path) with
      | none => none
      | some es => some (.list (addLoop es 0 offset cap))
    else some (.err ENOTDIR)

/-! ### Initial tree walk -/

/-- init from main.rs: walks every real entry (the RealFS list order
stands in for the WalkDir traversal order), keys the walk root by
FUSE_ROOT_ID and every other entry by its real inode number; none
models the conversion panic. -/
def initWalk : RealFS → RPath → Table → Option Table
  | [], _, tbl => some tbl
  | (p, m) :: rest, root, tbl =>
    let key := if p ≠ root then m.ino else FUSE_ROOT_ID
    match InodeAttributes.fromMeta m p with
    | none => none
    | some a => initWalk rest root (insertT tbl key a)

/-! ### Concrete fixtures used by witnesses and counterexamples -/

/-- A real metadata record with the given inode and mode, owner
1000:100. -/
def metaOf (ino mode : Nat) : RealMeta :=
  { ino := ino, uid := 1000, gid := 100, mode := mode, atime := (0, 0),
    mtime := (0, 0), len := 0, nlinks := 1, blksize := 4096, blocks := 0,
    rdev := 0, target := [] }

/-- A mirrored tree: root directory ["r"] (real inode 5, mode 0o40755)
holding one regular file ["r","t"] (inode 7, mode 0o100644). -/
def fsSmall : RealFS := [(["r"], metaOf 5 16877), (["r", "t"], metaOf 7 33188)]

/-- The attribute record the walk builds for the root of fsSmall. -/
def rootAttrs : InodeAttributes :=
  { ino := 5, uid := 1000, gid := 100, mode := 16877, atime := (0, 0),
    mtime := (0, 0), kind := .directory, len := 0, nlinks := 1,
    blksize := 4096, blocks := 0, rdev := 0, real_path := ["r"] }

/-- The attribute record the walk builds for the file of fsSmall. -/
def tAttrs : InodeAttributes :=
  { ino := 7, uid := 1000, gid := 100, mode := 33188, atime := (0, 0),
    mtime := (0, 0), kind := .file, len := 0, nlinks := 1,
    blksize := 4096, blocks := 0, rdev := 0, real_path := ["r", "t"] }

/-- The inode table produced by the initial walk of fsSmall. -/
def tblSmall : Table := [(7, tAttrs), (1, rootAttrs)]

/-- The kind carried by an entry reply, when there is one. -/
def entryKind : ReplyOut → Option FileKind
  | .entryR a => some a.kind
  | _ => none

/-! ### Claim C9 -/

/-- Claim C9 (refuted by this evaluation — the code contradicts the
protocol requirement of exactly one reply per request): a SetAttributes
call on a known inode whose change set contains none of the five
supported classes makes the handler run through its whole if/else chain
and return without ever touching the reply sink.  The inner none is the
absence of any reply: zero replies, not one. -/
theorem setattr_empty_change_set_no_reply :
    ((initWalk fsSmall ["r"] []).bind fun t =>
        setattr fsSmall t 0 7 {} 0).map (fun x => x.2.2) = some none := rfl

/-! ### Claim C10 -/

/-- Claim C10: for a parent (or subject) inode absent from the Inode
Table, every handler that resolves a child path through get_path —
mknod, mkdir, unlink, rmdir, symlink, rename, link, lookup — panics on
the table lookup (the unwrap; modelled by none) rather than replying
NotFound: the process aborts before any reply can be issued, so the
NotFound branch is unreachable for an unknown parent. -/
theorem get_path_panic_on_unknown_parent
    (fs : RealFS) (tbl : Table) (parent : Nat) (name : String)
    (h : lookupT tbl parent = none) :
    get_path tbl parent name = none ∧
    (∀ mode newIno cuid cgid,
      mknod fs tbl parent name mode newIno cuid cgid = none) ∧
    (∀ newIno cuid cgid, mkdir fs tbl parent name newIno cuid cgid = none) ∧
    unlink fs tbl parent name = none ∧
    rmdir fs tbl parent name = none ∧
    (∀ lnk newIno cuid cgid,
      symlink fs tbl parent name lnk newIno cuid cgid = none) ∧
    (∀ newparent newname, rename fs tbl parent name newparent newname = none) ∧
    (∀ newparent newname, link fs tbl parent newparent newname = none) ∧
    lookup fs tbl parent name = none := by
  have hp : ∀ n : String, get_path tbl parent n = none := by
    intro n
    unfold get_path
    rw [h]
    rfl
  refine ⟨hp name, ?_, ?_, ?_, ?_, ?_, ?_, ?_, ?_⟩
  · intro mode newIno cuid cgid
    simp [mknod, hp]
  · intro newIno cuid cgid
    simp [mkdir, hp]
  · simp [unlink, hp]
  · simp [rmdir, hp]
  · intro lnk newIno cuid cgid
    simp [symlink, hp]
  · intro newparent newname
    simp [rename, hp]
  · intro newparent newname
    simp [link, hp]
  · simp [lookup, lookup_name, hp]

/-- Witness for get_path_panic_on_unknown_parent: the empty table knows
no parent 1, so an unlink against it aborts. -/
theorem get_path_panic_witness :
    get_path [] 1 "x" = none ∧ unlink [] [] 1 "x" = none :=
  ⟨(get_path_panic_on_unknown_parent [] [] 1 "x" rfl).1,
    (get_path_panic_on_unknown_parent [] [] 1 "x" rfl).2.2.2.1⟩

/-! ### Claim C6 -/

/-- Success shape of the removal reconciliation helper. -/
theorem hmor_ok (tbl : Table) (md : Except Nat RealMeta)
    (r : Except Nat Unit) (m : RealMeta)
    (hmd : md = .ok m) (hr : r = .ok ()) :
    handle_metadata_on_removal tbl md r = (removeT tbl m.ino, .ok) := by
  subst hmd hr
  rfl

/-- Failure shape of the removal reconciliation helper: any non-ok reply
is a single error and leaves the table untouched. -/
theorem hmor_fail (tbl tbl' : Table) (md : Except Nat RealMeta)
    (r : Except Nat Unit) (rep : ReplyOut)
    (hx : handle_metadata_on_removal tbl md r = (tbl', rep))
    (hne : rep ≠ .ok) :
    tbl' = tbl ∧ ∃ e, rep = .error e := by
  rcases r with e | u
  · unfold handle_metadata_on_removal at hx
    exact ⟨(Prod.mk.injEq _ _ _ _ ▸ hx).1.symm, e, (Prod.mk.injEq _ _ _ _ ▸ hx).2.symm⟩
  · rcases md with e | m
    · unfold handle_metadata_on_removal at hx
      exact ⟨(Prod.mk.injEq _ _ _ _ ▸ hx).1.symm, e, (Prod.mk.injEq _ _ _ _ ▸ hx).2.symm⟩
    · unfold handle_metadata_on_removal at hx
      exact absurd (Prod.mk.injEq _ _ _ _ ▸ hx).2.symm hne

/-- Claim C6: for every Unlink and RemoveDirectory call on a known
parent, exactly one reply is issued; when the real removal and the
pre-removal metadata read both succeed the table entry keyed by that
metadata's inode is removed and ok is replied; in every other case a
single error is replied and the Inode Table is left unchanged — even
when the real removal has already taken effect. -/
theorem unlink_rmdir_spec (fs : RealFS) (tbl : Table) (parent : Nat)
    (name : String) (pa : InodeAttributes)
    (h : lookupT tbl parent = some pa) :
    (∃ st, unlink fs tbl parent name = some st) ∧
    (∃ st, rmdir fs tbl parent name = some st) ∧
    (∀ m, fs_metadata fs (pa.real_path ++ [name]) = .ok m →
      (remove_fileFS fs (pa.real_path ++ [name])).2 = .ok () →
      unlink fs tbl parent name =
        some ((remove_fileFS fs (pa.real_path ++ [name])).1,
          removeT tbl m.ino, .ok)) ∧
    (∀ m, fs_metadata fs (pa.real_path ++ [name]) = .ok m →
      (remove_dirFS fs (pa.real_path ++ [name])).2 = .ok () →
      rmdir fs tbl parent name =
        some ((remove_dirFS fs (pa.real_path ++ [name])).1,
          removeT tbl m.ino, .ok)) ∧
    (∀ fs' tbl' rep, unlink fs tbl parent name = some (fs', tbl', rep) →
      rep ≠ .ok → tbl' = tbl ∧ ∃ e, rep = .error e) ∧
    (∀ fs' tbl' rep, rmdir fs tbl parent name = some (fs', tbl', rep) →
      rep ≠ .ok → tbl' = tbl ∧ ∃ e, rep = .error e) := by
  have hp : get_path tbl parent name = some (pa.real_path ++ [name]) := by
    unfold get_path
    rw [h]
    rfl
  refine ⟨?_, ?_, ?_, ?_, ?_, ?_⟩
  · simp only [unlink, hp]
    exact ⟨_, rfl⟩
  · simp only [rmdir, hp]
    exact ⟨_, rfl⟩
  · intro m hmd hr
    simp only [unlink, hp]
    rw [hmor_ok tbl _ _ m hmd hr]
  · intro m hmd hr
    simp only [rmdir, hp]
    rw [hmor_ok tbl _ _ m hmd hr]
  · intro fs' tbl' rep hx hne
    simp only [unlink, hp, Option.some.injEq, Prod.mk.injEq] at hx
    exact hmor_fail tbl tbl' _ _ rep (Prod.ext_iff.mpr ⟨hx.2.1, hx.2.2⟩) hne
  · intro fs' tbl' rep hx hne
    simp only [rmdir, hp, Option.some.injEq, Prod.mk.injEq] at hx
    exact hmor_fail tbl tbl' _ _ rep (Prod.ext_iff.mpr ⟨hx.2.1, hx.2.2⟩) hne

/-- Witness for unlink_rmdir_spec: unlinking the known file of fsSmall
removes table entry 7 and replies ok. -/
theorem unlink_rmdir_spec_witness :
    unlink fsSmall tblSmall 1 "t" =
      some ((remove_fileFS fsSmall (rootAttrs.real_path ++ ["t"])).1,
        removeT tblSmall (metaOf 7 33188).ino, .ok) :=
  (unlink_rmdir_spec fsSmall tblSmall 1 "t" rootAttrs rfl).2.2.1
    (metaOf 7 33188) rfl rfl

/-! ### Claim C7 -/

/-- Claim C7 as amended: every inode number replied through Lookup's
entry reply, or through any entry/attr reply of the shared refresh
helper that the mutating handlers use, has a table entry at reply time
(keyed by that inode and holding the replied record).  ReadDirectory
replies, in contrast, take their inode numbers straight from the real
directory scan and insert nothing, so a readdir-replied inode can be
absent from the table — as the counterexample shows. -/
theorem replied_ino_in_table (fs : RealFS) (tbl tbl' : Table)
    (a : InodeAttributes) :
    (∀ parent name, lookup fs tbl parent name = some (tbl', .entryR a) →
      lookupT tbl' a.ino = some a) ∧
    (∀ path r rk rep,
      handle_metadata_on_change fs tbl path r rk = some (tbl', rep) →
      rep = .entryR a ∨ rep = .attrR a →
      lookupT tbl' a.ino = some a) := by
  constructor
  · intro parent name hx
    unfold lookup at hx
    cases hln : lookup_name fs tbl parent name with
    | none => rw [hln] at hx; exact absurd hx (by simp)
    | some r =>
      rw [hln] at hx
      cases r with
      | error e => simp at hx
      | ok b =>
        simp only [Option.map_some', Option.some.injEq, Prod.mk.injEq,
          ReplyOut.entryR.injEq] at hx
        rcases hx with ⟨ht, hb⟩
        subst hb
        rw [← ht]
        simp [insertT, lookupT]
  · intro path r rk rep hx hrep
    unfold handle_metadata_on_change at hx
    split at hx
    next =>
      simp only [Option.some.injEq, Prod.mk.injEq] at hx
      rcases hrep with hr | hr <;> rw [hr] at hx <;> exact absurd hx.2 (by simp)
    next =>
      split at hx
      next =>
        simp only [Option.some.injEq, Prod.mk.injEq] at hx
        rcases hrep with hr | hr <;> rw [hr] at hx <;> exact absurd hx.2 (by simp)
      next =>
        split at hx
        next => exact absurd hx (by simp)
        next b hb =>
          simp only [Option.some.injEq, Prod.mk.injEq] at hx
          obtain ⟨ht, hr⟩ := hx
          subst ht
          cases rk with
          | entry =>
            rcases hrep with h | h <;> rw [h] at hr
            · have hb2 : b = a := by injection hr
              subst hb2
              simp [insertT, lookupT]
            · exact absurd hr (by simp)
          | attr =>
            rcases hrep with h | h <;> rw [h] at hr
            · exact absurd hr (by simp)
            · have hb2 : b = a := by injection hr
              subst hb2
              simp [insertT, lookupT]
          | empty =>
            rcases hrep with h | h <;> rw [h] at hr <;> exact absurd hr (by simp)

/-- Witness for replied_ino_in_table: looking up the file of fsSmall
replies inode 7 and the refreshed table maps 7 to that record. -/
theorem replied_ino_in_table_witness :
    lookupT (insertT tblSmall tAttrs.ino tAttrs) tAttrs.ino = some tAttrs :=
  (replied_ino_in_table fsSmall tblSmall
    (insertT tblSmall tAttrs.ino tAttrs) tAttrs).1 1 "t" rfl

/-- Claim C7, counterexample: after the initial walk of fsSmall,
Symlink(root, "l" → ["r","t"]) succeeds, but its refresh resolves the
link and keys the inserted record by the TARGET's inode 7.  A following
ReadDirectory of the root replies the symlink's own inode 9 (taken
from the directory scan, which does not follow links), and the table
at reply time has no entry 9: an inode included in a reply with no
corresponding table entry. -/
theorem readdir_reply_ino_not_in_table :
    ((initWalk fsSmall ["r"] []).bind fun t =>
      (symlink fsSmall t 1 "l" ["r", "t"] 9 1000 100).map fun x =>
        (readdir x.1 x.2.1 1 0 100, lookupT x.2.1 9)) =
      some (some (.list [(9, 1, .symlink, "l"), (7, 2, .file, "t")]), none) :=
  rfl

/-! ### Claim C8 -/

/-- Lookup of a key in the table produced by the walk: the latest
walked entry carrying that (root-remapped) key wins, else the starting
table decides. -/
def walkFind : RealFS → RPath → Nat → Option InodeAttributes
  | [], _, _ => none
  | e :: rest, root, k =>
    match walkFind rest root k with
    | some a => some a
    | none =>
      if (if e.1 ≠ root then e.2.ino else FUSE_ROOT_ID) = k then
        InodeAttributes.fromMeta e.2 e.1
      else none

theorem lookupT_insertT (t : Table) (k i : Nat) (a : InodeAttributes) :
    lookupT (insertT t k a) i = if k = i then some a else lookupT t i := rfl

theorem walkFind_cons (e : RPath × RealMeta) (rest : RealFS) (root : RPath)
    (k : Nat) :
    walkFind (e :: rest) root k =
      match walkFind rest root k with
      | some a => some a
      | none =>
        if (if e.1 ≠ root then e.2.ino else FUSE_ROOT_ID) = k then
          InodeAttributes.fromMeta e.2 e.1
        else none := rfl

/-- Characterization of the walk: final table lookups are decided by
the latest matching walked entry, falling back to the initial table. -/
theorem initWalk_lookup (l : RealFS) (root : RPath) :
    ∀ (t tbl' : Table), initWalk l root t = some tbl' → ∀ k,
      lookupT tbl' k =
        match walkFind l root k with
        | some a => some a
        | none => lookupT t k := by
  induction l with
  | nil =>
    intro t tbl' hw k
    unfold initWalk at hw
    cases hw
    rfl
  | cons e rest ih =>
    intro t tbl' hw k
    obtain ⟨p, m⟩ := e
    unfold initWalk at hw
    cases hfm : InodeAttributes.fromMeta m p with
    | none => rw [hfm] at hw; cases hw
    | some a =>
      rw [hfm] at hw
      have h := ih _ _ hw k
      rw [h, walkFind_cons]
      cases hwf : walkFind rest root k with
      | some b => rfl
      | none =>
        dsimp only
        rw [lookupT_insertT]
        by_cases hk : (if p ≠ root then m.ino else FUSE_ROOT_ID) = k
        · rw [if_pos hk, if_pos hk, hfm]
        · rw [if_neg hk, if_neg hk]

/-- A key carried by no walked entry is not found by walkFind. -/
theorem walkFind_none_of_not_mem (l : RealFS) (root : RPath) (k : Nat)
    (h : ∀ e ∈ l, (if e.1 ≠ root then e.2.ino else FUSE_ROOT_ID) ≠ k) :
    walkFind l root k = none := by
  induction l with
  | nil => rfl
  | cons e rest ih =>
    unfold walkFind
    rw [ih fun x hx => h x (List.mem_cons_of_mem e hx)]
    rw [if_neg (h e (List.mem_cons_self e rest))]

/-- With pairwise distinct walked keys, walkFind returns exactly the
record of the walked entry carrying the key. -/
theorem walkFind_mem (l : RealFS) (root : RPath) (p : RPath)
    (m : RealMeta) (a : InodeAttributes)
    (hmem : (p, m) ∈ l)
    (hnd : (l.map fun e =>
      if e.1 ≠ root then e.2.ino else FUSE_ROOT_ID).Nodup)
    (hfm : InodeAttributes.fromMeta m p = some a) :
    walkFind l root (if p ≠ root then m.ino else FUSE_ROOT_ID) = some a := by
  induction l with
  | nil => cases hmem
  | cons e rest ih =>
    rw [List.map_cons, List.nodup_cons] at hnd
    rcases List.mem_cons.mp hmem with heq | hmem'
    · subst heq
      unfold walkFind
      rw [walkFind_none_of_not_mem rest root _ ?notmem, if_pos rfl, hfm]
      case notmem =>
        intro x hx hkey
        exact hnd.1 (hkey ▸ List.mem_map_of_mem
          (fun e => if e.1 ≠ root then e.2.ino else FUSE_ROOT_ID) hx)
    · unfold walkFind
      rw [ih hmem' hnd.2]

/-- Claim C8 as amended: after the initial tree walk the root's table
entry is keyed by the protocol's reserved root inode number and every
other walked entry is keyed by its real inode number (assuming the
walked keys are pairwise distinct: no two entries share an inode and no
non-root entry carries the reserved number).  The stored root record,
however, keeps the real filesystem root's inode in its ino field, so an
attribute reply for the root carries the real root inode — not the
reserved identifier, contrary to the claim's last part (see the
counterexample getattr_root_replies_real_ino). -/
theorem initWalk_keys (fs : RealFS) (root : RPath) (tbl' : Table)
    (hw : initWalk fs root [] = some tbl')
    (hnd : (fs.map fun e =>
      if e.1 ≠ root then e.2.ino else FUSE_ROOT_ID).Nodup) :
    (∀ p m a, (p, m) ∈ fs → InodeAttributes.fromMeta m p = some a →
      lookupT tbl' (if p ≠ root then m.ino else FUSE_ROOT_ID) = some a) ∧
    (∀ rm a, (root, rm) ∈ fs → InodeAttributes.fromMeta rm root = some a →
      getattr tbl' FUSE_ROOT_ID = .attrR a ∧ a.ino = rm.ino) := by
  have hmain : ∀ p m a, (p, m) ∈ fs → InodeAttributes.fromMeta m p = some a →
      lookupT tbl' (if p ≠ root then m.ino else FUSE_ROOT_ID) = some a := by
    intro p m a hmem hfm
    rw [initWalk_lookup fs root [] tbl' hw _,
      walkFind_mem fs root p m a hmem hnd hfm]
  refine ⟨hmain, fun rm a hmem hfm => ?_⟩
  have h := hmain root rm a hmem hfm
  rw [if_neg (by simp)] at h
  constructor
  · unfold getattr
    rw [h]
  · unfold InodeAttributes.fromMeta at hfm
    rcases Option.map_eq_some'.mp hfm with ⟨k, _, hk⟩
    rw [← hk]

/-- Witness for initWalk_keys: in the walked table of fsSmall the file
entry is keyed by its real inode 7 and holds its fresh record. -/
theorem initWalk_keys_witness :
    lookupT tblSmall
      (if (["r", "t"] : RPath) ≠ ["r"] then (metaOf 7 33188).ino
       else FUSE_ROOT_ID) = some tAttrs :=
  (initWalk_keys fsSmall ["r"] tblSmall rfl (by decide)).1
    ["r", "t"] (metaOf 7 33188) tAttrs (by decide) rfl

/-- Claim C8, counterexample: the walk of fsSmall (real root inode 5)
keys the root record by the reserved identifier 1, but the record —
and therefore every attribute reply for the virtual root — carries the
real inode 5 as its inode, not the reserved identifier. -/
theorem getattr_root_replies_real_ino :
    ((initWalk fsSmall ["r"] []).map fun t => getattr t FUSE_ROOT_ID) =
      some (.attrR rootAttrs) ∧ rootAttrs.ino ≠ FUSE_ROOT_ID :=
  ⟨rfl, by decide⟩

/-! ### Claim C5 -/

theorem lookupFS_cons (e1 : RPath) (e2 : RealMeta) (rest : RealFS)
    (q : RPath) :
    lookupFS ((e1, e2) :: rest) q =
      if e1 = q then some e2 else lookupFS rest q := rfl

theorem lookupFS_insertFS_self (fs : RealFS) (p : RPath) (m : RealMeta) :
    lookupFS (insertFS fs p m) p = some m := by
  unfold insertFS
  rw [lookupFS_cons, if_pos rfl]

theorem lookupFS_eraseFS_ne (fs : RealFS) (p q : RPath) (h : q ≠ p) :
    lookupFS (eraseFS fs p) q = lookupFS fs q := by
  induction fs with
  | nil => rfl
  | cons e rest ih =>
    obtain ⟨e1, e2⟩ := e
    unfold eraseFS at ih ⊢
    rw [List.filter_cons]
    by_cases he : e1 = p
    · rw [if_neg (by simp [he]), ih, lookupFS_cons,
        if_neg fun hq : e1 = q => h (hq ▸ he)]
    · rw [if_pos (by simp [he]), lookupFS_cons, lookupFS_cons, ih]

theorem lookupFS_insertFS_ne (fs : RealFS) (p q : RPath) (m : RealMeta)
    (h : q ≠ p) : lookupFS (insertFS fs p m) q = lookupFS fs q := by
  unfold insertFS
  rw [lookupFS_cons, if_neg fun hq => h hq.symm]
  exact lookupFS_eraseFS_ne fs p q h

theorem freshFileMeta_mode (i u g : Nat) : (freshFileMeta i u g).mode = 33188 :=
  rfl

theorem freshDirMeta_mode (i u g : Nat) : (freshDirMeta i u g).mode = 16877 :=
  rfl

theorem freshSymMeta_mode (i u g : Nat) (lnk : RPath) :
    (freshSymMeta i u g lnk).mode = 41471 := rfl

theorem resolvePath_succ (fuel : Nat) (fs : RealFS) (p : RPath) :
    resolvePath (fuel + 1) fs p =
      match lookupFS fs p with
      | none => none
      | some m =>
        if m.mode &&& 61440 = 40960 then resolvePath fuel fs m.target
        else some p := rfl

/-- Refresh resolution of a freshly inserted non-symlink entry. -/
theorem resolveMeta_insert_self (fs : RealFS) (p : RPath) (m : RealMeta)
    (hns : m.mode &&& 61440 ≠ 40960) :
    resolveMeta (insertFS fs p m) p = some m := by
  unfold resolveMeta
  rw [show (41 : Nat) = 40 + 1 from rfl, resolvePath_succ,
    lookupFS_insertFS_self]
  dsimp only
  rw [if_neg hns]
  dsimp only [Option.bind]
  exact lookupFS_insertFS_self fs p m

/-- Refresh resolution of a freshly created symlink: fs::metadata
follows the link and lands on the target's metadata. -/
theorem resolveMeta_insert_symlink (fs : RealFS) (p lnk : RPath)
    (tm : RealMeta) (i u g : Nat) (hne : lnk ≠ p)
    (hlnk : lookupFS fs lnk = some tm)
    (htm : tm.mode &&& 61440 ≠ 40960) :
    resolveMeta (insertFS fs p (freshSymMeta i u g lnk)) p = some tm := by
  unfold resolveMeta
  rw [show (41 : Nat) = 40 + 1 from rfl, resolvePath_succ,
    lookupFS_insertFS_self]
  dsimp only
  rw [if_pos (by rw [freshSymMeta_mode]; decide)]
  show (resolvePath (39 + 1) _ (freshSymMeta i u g lnk).target).bind _ = _
  rw [show (freshSymMeta i u g lnk).target = lnk from rfl, resolvePath_succ,
    lookupFS_insertFS_ne fs p lnk _ hne, hlnk]
  dsimp only
  rw [if_neg htm]
  dsimp only [Option.bind]
  rw [lookupFS_insertFS_ne fs p lnk _ hne, hlnk]

/-- The conversion keeps the metadata's inode and derives the kind from
the type bits. -/
theorem fromMeta_kind (m : RealMeta) (path : RPath) (k : FileKind)
    (hk : as_file_kind m.mode = some k) :
    ∃ a, InodeAttributes.fromMeta m path = some a ∧
      a.kind = k ∧ a.ino = m.ino ∧ a.real_path = path := by
  unfold InodeAttributes.fromMeta
  rw [hk]
  exact ⟨_, rfl, rfl, rfl, rfl⟩

/-- Success shape of the refresh helper for an entry reply. -/
theorem hmoc_entry_ok (fs : RealFS) (tbl : Table) (path : RPath)
    (m : RealMeta) (a : InodeAttributes)
    (hres : resolveMeta fs path = some m)
    (hfm : InodeAttributes.fromMeta m path = some a) :
    handle_metadata_on_change fs tbl path (.ok ()) .entry =
      some (insertT tbl a.ino a, .entryR a) := by
  unfold handle_metadata_on_change
  dsimp only
  rw [hres]
  dsimp only
  rw [hfm]

/-- Success shape of the lookup handler. -/
theorem lookup_ok (fs : RealFS) (tbl : Table) (parent : Nat)
    (name : String) (pa : InodeAttributes) (m : RealMeta)
    (a : InodeAttributes) (h : lookupT tbl parent = some pa)
    (hres : resolveMeta fs (pa.real_path ++ [name]) = some m)
    (hfm : InodeAttributes.fromMeta m (pa.real_path ++ [name]) = some a) :
    lookup fs tbl parent name = some (insertT tbl a.ino a, .entryR a) := by
  unfold lookup lookup_name get_path
  rw [h]
  dsimp only [Option.map]
  rw [hres]
  dsimp only
  rw [hfm]

/-- Claim C5 as amended: MakeNode with an unsupported type replies "not
implemented" and creates nothing; MakeNode with any supported type bits
(regular file, symlink or directory alike) creates a regular file, and
a subsequent Lookup reports kind regular-file — matching the request
only for regular files; MakeDirectory creates a directory and Lookup
reports directory; after Symlink, Lookup reports the link target's
kind (the metadata read follows the link), not symlink. -/
theorem create_then_lookup_kind :
    (∀ fs tbl parent name mode newIno cuid cgid pa,
      lookupT tbl parent = some pa →
      mode &&& 61440 ≠ 32768 → mode &&& 61440 ≠ 40960 →
      mode &&& 61440 ≠ 16384 →
      mknod fs tbl parent name mode newIno cuid cgid =
        some (fs, tbl, .error ENOSYS)) ∧
    (∀ fs tbl parent name mode newIno cuid cgid pa,
      lookupT tbl parent = some pa →
      (mode &&& 61440 = 32768 ∨ mode &&& 61440 = 40960 ∨
        mode &&& 61440 = 16384) →
      resolveMeta fs (pa.real_path ++ [name]) = none →
      lookupFS fs (pa.real_path ++ [name]) = none →
      newIno ≠ parent →
      ∃ fs' tbl' a tbl'' b,
        mknod fs tbl parent name mode newIno cuid cgid =
          some (fs', tbl', .entryR a) ∧ a.kind = .file ∧
        lookup fs' tbl' parent name = some (tbl'', .entryR b) ∧
        b.kind = .file) ∧
    (∀ fs tbl parent name newIno cuid cgid pa,
      lookupT tbl parent = some pa →
      lookupFS fs (pa.real_path ++ [name]) = none →
      newIno ≠ parent →
      ∃ fs' tbl' a tbl'' b,
        mkdir fs tbl parent name newIno cuid cgid =
          some (fs', tbl', .entryR a) ∧ a.kind = .directory ∧
        lookup fs' tbl' parent name = some (tbl'', .entryR b) ∧
        b.kind = .directory) ∧
    (∀ fs tbl parent name lnk newIno cuid cgid pa tm,
      lookupT tbl parent = some pa →
      lookupFS fs (pa.real_path ++ [name]) = none →
      lookupFS fs lnk = some tm →
      tm.mode &&& 61440 = 32768 →
      lnk ≠ pa.real_path ++ [name] →
      tm.ino ≠ parent →
      ∃ fs' tbl' a tbl'' b,
        symlink fs tbl parent name lnk newIno cuid cgid =
          some (fs', tbl', .entryR a) ∧ a.kind = .file ∧ a.ino = tm.ino ∧
        lookup fs' tbl' parent name = some (tbl'', .entryR b) ∧
        b.kind = .file) := by
  refine ⟨?enosys, ?mk, ?md, ?sy⟩
  case enosys =>
    intro fs tbl parent name mode newIno cuid cgid pa h h1 h2 h3
    have hp : get_path tbl parent name = some (pa.real_path ++ [name]) := by
      unfold get_path
      rw [h]
      rfl
    unfold mknod
    rw [hp]
    dsimp only
    rw [if_pos ⟨h1, h2, h3⟩]
  case mk =>
    intro fs tbl parent name mode newIno cuid cgid pa h hsup hres hraw hni
    have hp : get_path tbl parent name = some (pa.real_path ++ [name]) := by
      unfold get_path
      rw [h]
      rfl
    have hln : lookup_name fs tbl parent name = some (.error ENOENT) := by
      unfold lookup_name
      rw [hp]
      dsimp only
      rw [hres]
    have hcr : file_createFS fs (pa.real_path ++ [name]) newIno cuid cgid =
        (insertFS fs (pa.real_path ++ [name]) (freshFileMeta newIno cuid cgid),
          .ok ()) := by
      unfold file_createFS
      rw [hraw]
    have hrm := resolveMeta_insert_self fs (pa.real_path ++ [name])
      (freshFileMeta newIno cuid cgid) (by rw [freshFileMeta_mode]; decide)
    obtain ⟨a, hfm, hak, hai, _⟩ := fromMeta_kind
      (freshFileMeta newIno cuid cgid) (pa.real_path ++ [name]) .file
      (by rw [freshFileMeta_mode]; decide)
    have hmk : mknod fs tbl parent name mode newIno cuid cgid =
        some (insertFS fs (pa.real_path ++ [name])
            (freshFileMeta newIno cuid cgid),
          insertT tbl a.ino a, .entryR a) := by
      unfold mknod
      rw [hp]
      dsimp only
      rw [if_neg (by rcases hsup with h1 | h1 | h1 <;> simp [h1]), hln]
      dsimp only
      rw [hcr]
      dsimp only
      rw [hmoc_entry_ok _ tbl _ _ a hrm hfm]
      rfl
    have h' : lookupT (insertT tbl a.ino a) parent = some pa := by
      rw [lookupT_insertT, if_neg (by rw [hai]; exact hni)]
      exact h
    exact ⟨_, _, a, _, a, hmk, hak,
      lookup_ok _ _ parent name pa _ a h' hrm hfm, hak⟩
  case md =>
    intro fs tbl parent name newIno cuid cgid pa h hraw hni
    have hp : get_path tbl parent name = some (pa.real_path ++ [name]) := by
      unfold get_path
      rw [h]
      rfl
    have hcr : create_dirFS fs (pa.real_path ++ [name]) newIno cuid cgid =
        (insertFS fs (pa.real_path ++ [name]) (freshDirMeta newIno cuid cgid),
          .ok ()) := by
      unfold create_dirFS
      rw [hraw]
    have hrm := resolveMeta_insert_self fs (pa.real_path ++ [name])
      (freshDirMeta newIno cuid cgid) (by rw [freshDirMeta_mode]; decide)
    obtain ⟨a, hfm, hak, hai, _⟩ := fromMeta_kind
      (freshDirMeta newIno cuid cgid) (pa.real_path ++ [name]) .directory
      (by rw [freshDirMeta_mode]; decide)
    have hmk : mkdir fs tbl parent name newIno cuid cgid =
        some (insertFS fs (pa.real_path ++ [name])
            (freshDirMeta newIno cuid cgid),
          insertT tbl a.ino a, .entryR a) := by
      unfold mkdir
      rw [hp]
      dsimp only
      rw [hcr]
      dsimp only
      rw [hmoc_entry_ok _ tbl _ _ a hrm hfm]
      rfl
    have h' : lookupT (insertT tbl a.ino a) parent = some pa := by
      rw [lookupT_insertT, if_neg (by rw [hai]; exact hni)]
      exact h
    exact ⟨_, _, a, _, a, hmk, hak,
      lookup_ok _ _ parent name pa _ a h' hrm hfm, hak⟩
  case sy =>
    intro fs tbl parent name lnk newIno cuid cgid pa tm h hraw hlnk htm hne hni
    have hp : get_path tbl parent name = some (pa.real_path ++ [name]) := by
      unfold get_path
      rw [h]
      rfl
    have hcr : symlinkFS fs (pa.real_path ++ [name]) lnk newIno cuid cgid =
        (insertFS fs (pa.real_path ++ [name])
          (freshSymMeta newIno cuid cgid lnk), .ok ()) := by
      unfold symlinkFS
      rw [hraw]
    have hrm := resolveMeta_insert_symlink fs (pa.real_path ++ [name]) lnk
      tm newIno cuid cgid hne hlnk (by rw [htm]; decide)
    obtain ⟨a, hfm, hak, hai, _⟩ := fromMeta_kind tm
      (pa.real_path ++ [name]) .file (by simp [as_file_kind, htm])
    have hmk : symlink fs tbl parent name lnk newIno cuid cgid =
        some (insertFS fs (pa.real_path ++ [name])
            (freshSymMeta newIno cuid cgid lnk),
          insertT tbl a.ino a, .entryR a) := by
      unfold symlink
      rw [hp]
      dsimp only
      rw [hcr]
      dsimp only
      rw [hmoc_entry_ok _ tbl _ _ a hrm hfm]
      rfl
    have h' : lookupT (insertT tbl a.ino a) parent = some pa := by
      rw [lookupT_insertT, if_neg (by rw [hai]; exact hni)]
      exact h
    exact ⟨_, _, a, _, a, hmk, hak, hai,
      lookup_ok _ _ parent name pa _ a h' hrm hfm, hak⟩

/-- Witness for create_then_lookup_kind: a mknod with fifo type bits
(0o10000) on the known root of fsSmall replies not-implemented and
changes nothing. -/
theorem create_then_lookup_kind_witness :
    mknod fsSmall tblSmall 1 "p" 4096 11 1000 100 =
      some (fsSmall, tblSmall, .error ENOSYS) :=
  create_then_lookup_kind.1 fsSmall tblSmall 1 "p" 4096 11 1000 100
    rootAttrs rfl (by decide) (by decide) (by decide)

/-- Claim C5, counterexample: MakeNode with directory type bits
(mode 0o40755) is accepted as a supported type, yet File::create makes
a regular file, so the subsequent Lookup by the same parent and name
reports kind regular-file — not the directory kind requested at
creation. -/
theorem mknod_requested_kind_counterexample :
    ((mknod fsSmall tblSmall 1 "d" 16877 11 1000 100).bind fun st =>
      (lookup st.1 st.2.1 1 "d").map fun y => entryKind y.2) =
      some (some .file) ∧ (16877 : Nat) &&& 61440 = 16384 ∧
      FileKind.file ≠ FileKind.directory :=
  ⟨rfl, by decide, by decide⟩

/-! ### Claim C4 -/

/-- The first change class present in setattr's fixed precedence order
(spec §4.3): mode, then ownership, then size, then access time, then
modify time; all later classes erased. -/
def firstChangeClass (a : SetattrArgs) : SetattrArgs :=
  if a.mode.isSome then { mode := a.mode }
  else if a.uid.isSome ∨ a.gid.isSome then { uid := a.uid, gid := a.gid }
  else if a.size.isSome then { size := a.size }
  else if a.atime.isSome then { atime := a.atime }
  else { mtime := a.mtime }

/-- Success shape of the refresh helper for an attr reply: a non-error
reply means the record was re-read from disk at the path, inserted
keyed by its fresh inode, and replied. -/
theorem hmoc_attr_success (fs : RealFS) (tbl tbl' : Table) (path : RPath)
    (r : Except Nat Unit) (rep : ReplyOut)
    (hx : handle_metadata_on_change fs tbl path r .attr = some (tbl', rep))
    (hne : ∀ e, rep ≠ .error e) :
    ∃ meta a, resolveMeta fs path = some meta ∧
      InodeAttributes.fromMeta meta path = some a ∧
      tbl' = insertT tbl a.ino a ∧ rep = .attrR a := by
  unfold handle_metadata_on_change at hx
  split at hx
  next e =>
    simp only [Option.some.injEq, Prod.mk.injEq] at hx
    exact absurd hx.2.symm (hne e)
  next =>
    split at hx
    next =>
      simp only [Option.some.injEq, Prod.mk.injEq] at hx
      exact absurd hx.2.symm (hne ENOENT)
    next meta hres =>
      split at hx
      next => exact absurd hx (by simp)
      next a hfm =>
        simp only [Option.some.injEq, Prod.mk.injEq] at hx
        exact ⟨meta, a, hres, hfm, hx.1.symm, hx.2.symm⟩

/-- Shape of every mutating setattr branch: the handler maps the
refresh helper's output, pairing it with the mutated real state. -/
theorem setattr_branch_refresh (f1 : RealFS) (tbl tbl' : Table)
    (path : RPath) (r1 : Except Nat Unit) (fs' : RealFS) (rep : ReplyOut)
    (hx : (handle_metadata_on_change f1 tbl path r1 .attr).map
        (fun x => (f1, x.1, some x.2)) = some (fs', tbl', some rep))
    (hne : ∀ e, rep ≠ .error e) :
    fs' = f1 ∧ ∃ meta a, resolveMeta f1 path = some meta ∧
      InodeAttributes.fromMeta meta path = some a ∧
      tbl' = insertT tbl a.ino a ∧ rep = .attrR a := by
  obtain ⟨⟨t2, r2⟩, hmoc, heq⟩ := Option.map_eq_some'.mp hx
  simp only [Prod.mk.injEq, Option.some.injEq] at heq
  obtain ⟨hfs, ht, hr⟩ := heq
  rw [ht, hr] at hmoc
  exact ⟨hfs.symm, hmoc_attr_success f1 tbl tbl' path r1 rep hmoc hne⟩

/-- Claim C4: setattr processes exactly one change class per call — the
first present in the precedence order mode, ownership, size,
access-time, modify-time (erasing every later class never changes the
outcome); a mode change requested by a caller that is neither root nor
the owner replies PermissionDenied, leaving the real filesystem (hence
the real file's mode) and the inode table untouched; and whenever the
one processed class succeeds, the record is refreshed from disk —
re-read at the entry's path from the resulting real state — inserted
keyed by its fresh inode, and returned as the reply. -/
theorem setattr_spec :
    (∀ fs tbl req_uid ino args nowSecs,
      setattr fs tbl req_uid ino args nowSecs =
        setattr fs tbl req_uid ino (firstChangeClass args) nowSecs) ∧
    (∀ fs tbl req_uid ino args nowSecs attrs mode,
      lookupT tbl ino = some attrs → args.mode = some mode →
      req_uid ≠ 0 → req_uid ≠ attrs.uid →
      setattr fs tbl req_uid ino args nowSecs =
        some (fs, tbl, some (.error EPERM))) ∧
    (∀ fs tbl req_uid ino args nowSecs attrs fs' tbl' rep,
      lookupT tbl ino = some attrs →
      setattr fs tbl req_uid ino args nowSecs = some (fs', tbl', some rep) →
      (∀ e, rep ≠ .error e) →
      ∃ meta a, resolveMeta fs' attrs.real_path = some meta ∧
        InodeAttributes.fromMeta meta attrs.real_path = some a ∧
        tbl' = insertT tbl a.ino a ∧ rep = .attrR a) := by
  refine ⟨?erase, ?eperm, ?refresh⟩
  case erase =>
    intro fs tbl ru ino args now
    obtain ⟨mo, u, g, sz, ta, tm⟩ := args
    cases hl : lookupT tbl ino with
    | none =>
      cases mo <;> cases u <;> cases g <;> cases sz <;> cases ta <;>
        cases tm <;> simp [setattr, firstChangeClass, hl]
    | some attrs =>
      cases mo <;> cases u <;> cases g <;> cases sz <;> cases ta <;>
        cases tm <;> simp [setattr, firstChangeClass, hl]
  case eperm =>
    intro fs tbl ru ino args now attrs mode hl hmode hr0 hru
    unfold setattr
    rw [hl]
    dsimp only
    rw [hmode]
    dsimp only
    rw [if_pos ⟨hr0, hru⟩]
  case refresh =>
    intro fs tbl ru ino args now attrs fs' tbl' rep hl hx hne
    unfold setattr at hx
    rw [hl] at hx
    dsimp only at hx
    cases hmo : args.mode with
    | some mode =>
      rw [hmo] at hx
      dsimp only at hx
      by_cases hperm : ru ≠ 0 ∧ ru ≠ attrs.uid
      · rw [if_pos hperm] at hx
        simp only [Option.some.injEq, Prod.mk.injEq] at hx
        exact absurd hx.2.2.symm (hne EPERM)
      · rw [if_neg hperm] at hx
        obtain ⟨hfs, hrest⟩ := setattr_branch_refresh _ tbl tbl' _ _ fs' rep hx hne
        subst hfs
        exact hrest
    | none =>
      rw [hmo] at hx
      dsimp only at hx
      by_cases hug : args.uid.isSome ∨ args.gid.isSome
      · rw [if_pos hug] at hx
        obtain ⟨hfs, hrest⟩ := setattr_branch_refresh _ tbl tbl' _ _ fs' rep hx hne
        subst hfs
        exact hrest
      · rw [if_neg hug] at hx
        cases hsz : args.size with
        | some size =>
          rw [hsz] at hx
          dsimp only at hx
          cases how : openWrite fs attrs.real_path with
          | error e =>
            rw [how] at hx
            simp only [Option.some.injEq, Prod.mk.injEq] at hx
            exact absurd hx.2.2.symm (hne e)
          | ok q =>
            rw [how] at hx
            dsimp only at hx
            obtain ⟨hfs, hrest⟩ :=
              setattr_branch_refresh _ tbl tbl' _ _ fs' rep hx hne
            subst hfs
            exact hrest
        | none =>
          rw [hsz] at hx
          dsimp only at hx
          cases hta : args.atime with
          | some t =>
            rw [hta] at hx
            dsimp only at hx
            obtain ⟨hfs, hrest⟩ :=
              setattr_branch_refresh _ tbl tbl' _ _ fs' rep hx hne
            subst hfs
            exact hrest
          | none =>
            rw [hta] at hx
            dsimp only at hx
            cases htm : args.mtime with
            | some t =>
              rw [htm] at hx
              dsimp only at hx
              obtain ⟨hfs, hrest⟩ :=
                setattr_branch_refresh _ tbl tbl' _ _ fs' rep hx hne
              subst hfs
              exact hrest
            | none =>
              rw [htm] at hx
              simp at hx

/-- Witness for setattr_spec: a chmod of the file of fsSmall by
requester 5 (neither root nor owner 1000) replies EPERM and changes
nothing; and erasing the classes after the first is inert on a request
carrying both a mode and a size change. -/
theorem setattr_spec_witness :
    setattr fsSmall tblSmall 5 7 { mode := some 384 } 0 =
      some (fsSmall, tblSmall, some (.error EPERM)) ∧
    setattr fsSmall tblSmall 0 7 { mode := some 384, size := some 9 } 0 =
      setattr fsSmall tblSmall 0 7
        (firstChangeClass { mode := some 384, size := some 9 }) 0 :=
  ⟨setattr_spec.2.1 fsSmall tblSmall 5 7 { mode := some 384 } 0 tAttrs 384
      rfl rfl (by decide) (by decide),
    setattr_spec.1 fsSmall tblSmall 0 7 { mode := some 384, size := some 9 } 0⟩

/-! ### Claim C3 -/

/-- Characterization of the readdir fill loop: the scanned entries at
enumeration positions ≥ offset, cut to the buffer capacity, each tagged
offset + position + 1. -/
theorem addLoop_eq (es : List (Nat × FileKind × String)) (i0 : Nat)
    (off : Int) (cap : Nat) :
    addLoop es i0 off cap =
      (((es.enumFrom i0).filter fun p => off ≤ (p.1 : Int)).take cap).map
        fun p => (p.2.1, off + p.1 + 1, p.2.2.1, p.2.2.2) := by
  induction es generalizing i0 cap with
  | nil => simp [addLoop]
  | cons e rest ih =>
    rw [List.enumFrom_cons]
    unfold addLoop
    by_cases hge : off ≤ (i0 : Int)
    · rw [if_pos hge, List.filter_cons, if_pos (by simpa using hge)]
      cases cap with
      | zero => rfl
      | succ c =>
        dsimp only
        rw [List.take_succ_cons, List.map_cons, ih]
    · rw [if_neg hge, List.filter_cons, if_neg (by simpa using hge), ih]

/-- Every tag produced from enumeration index i0 on is at least
off + i0 + 1. -/
theorem addLoop_tag_lb (es : List (Nat × FileKind × String)) (i0 : Nat)
    (off : Int) (cap : Nat) :
    ∀ x ∈ addLoop es i0 off cap, off + i0 + 1 ≤ x.2.1 := by
  induction es generalizing i0 cap with
  | nil => intro x hx; simp [addLoop] at hx
  | cons e rest ih =>
    intro x hx
    unfold addLoop at hx
    by_cases hge : off ≤ (i0 : Int)
    · rw [if_pos hge] at hx
      cases cap with
      | zero => simp at hx
      | succ c =>
        rcases List.mem_cons.mp hx with h | h
        · subst h
          exact le_refl _
        · have hle := ih (i0 + 1) c x h
          have : ((i0 + 1 : Nat) : Int) = (i0 : Int) + 1 := by push_cast; ring
          omega
    · rw [if_neg hge] at hx
      have hle := ih (i0 + 1) cap x hx
      have : ((i0 + 1 : Nat) : Int) = (i0 : Int) + 1 := by push_cast; ring
      omega

/-- The next_offset tags within one readdir reply strictly increase. -/
theorem addLoop_chain (es : List (Nat × FileKind × String)) (i0 : Nat)
    (off : Int) (cap : Nat) :
    List.Chain' (fun x y => x.2.1 < y.2.1) (addLoop es i0 off cap) := by
  induction es generalizing i0 cap with
  | nil => exact List.chain'_nil
  | cons e rest ih =>
    unfold addLoop
    by_cases hge : off ≤ (i0 : Int)
    · rw [if_pos hge]
      cases cap with
      | zero => exact List.chain'_nil
      | succ c =>
        rw [List.chain'_cons']
        refine ⟨fun y hy => ?_, ih _ _⟩
        have hmem : y ∈ addLoop rest (i0 + 1) off c :=
          List.mem_of_mem_head? hy
        have hle := addLoop_tag_lb rest (i0 + 1) off c y hmem
        have : ((i0 + 1 : Nat) : Int) = (i0 : Int) + 1 := by push_cast; ring
        dsimp only
        omega
    · rw [if_neg hge]
      exact ih _ _

/-- A filter that keeps indices at or above the enumeration start keeps
everything. -/
theorem enumFrom_filter_all (es : List (Nat × FileKind × String))
    (i0 : Nat) (off : Int) (h : off ≤ (i0 : Int)) :
    ((es.enumFrom i0).filter fun p => off ≤ (p.1 : Int)) =
      es.enumFrom i0 := by
  induction es generalizing i0 with
  | nil => rfl
  | cons e rest ih =>
    rw [List.enumFrom_cons, List.filter_cons, if_pos (by simpa using h),
      ih (i0 + 1) (by push_cast; omega)]

/-- Filtering the enumeration at index i0 + k is dropping its first k
elements. -/
theorem enumFrom_filter_ge (es : List (Nat × FileKind × String)) :
    ∀ (i0 k : Nat) (off : Int), off = ((i0 + k : Nat) : Int) →
    ((es.enumFrom i0).filter fun p => off ≤ (p.1 : Int)) =
      (es.enumFrom i0).drop k := by
  induction es with
  | nil => intro i0 k off hoff; simp
  | cons e rest ih =>
    intro i0 k off hoff
    rw [List.enumFrom_cons]
    cases k with
    | zero =>
      rw [List.drop_zero, ← List.enumFrom_cons]
      exact enumFrom_filter_all _ _ _ (by omega)
    | succ c =>
      rw [List.filter_cons, if_neg (by simp; omega), List.drop_succ_cons]
      exact ih (i0 + 1) c off (by push_cast at hoff ⊢; omega)

/-- Resuming a truncated offset-0 call at the number of entries already
returned yields, tags aside, exactly the remaining entries: none
skipped, none repeated. -/
theorem addLoop_resume_from_zero (es : List (Nat × FileKind × String))
    (k c : Nat) :
    (addLoop es 0 0 k).map (fun x => (x.1, x.2.2)) ++
      (addLoop es 0 (k : Int) c).map (fun x => (x.1, x.2.2)) =
      (addLoop es 0 0 (k + c)).map (fun x => (x.1, x.2.2)) := by
  rw [addLoop_eq, addLoop_eq, addLoop_eq,
    enumFrom_filter_all es 0 0 (by simp),
    enumFrom_filter_ge es 0 k (k : Int) (by simp),
    List.map_map, List.map_map, List.map_map]
  show (((es.enumFrom 0).take k).map fun p => (p.2.1, p.2.2.1, p.2.2.2)) ++
      ((((es.enumFrom 0).drop k).take c).map
        fun p => (p.2.1, p.2.2.1, p.2.2.2)) =
    (((es.enumFrom 0).take (k + c)).map fun p => (p.2.1, p.2.2.1, p.2.2.2))
  rw [← List.map_append, ← List.take_add]

/-- Inverting a successful readdir reply into its ingredients. -/
theorem readdir_list_inv (fs : RealFS) (tbl : Table) (ino : Nat)
    (off : Int) (cap : Nat) (L : List (Nat × Int × FileKind × String))
    (hx : readdir fs tbl ino off cap = some (.list L)) :
    ∃ attrs es, lookupT tbl ino = some attrs ∧ attrs.kind = .directory ∧
      collectEntries (childrenFS fs attrs.real_path) = some es ∧
      L = addLoop es 0 off cap := by
  unfold readdir at hx
  split at hx
  next => simp at hx
  next attrs heq =>
    split at hx
    next hdir =>
      split at hx
      next => exact absurd hx (by simp)
      next es hcoll =>
        simp only [Option.some.injEq, DirReply.list.injEq] at hx
        exact ⟨attrs, es, heq, hdir, hcoll, hx.symm⟩
    next hdir => simp at hx

/-- The one-file scenario tree: root ["r"] holding "f.txt" (inode 7). -/
def fsScen : RealFS := [(["r"], metaOf 5 16877), (["r", "f.txt"], metaOf 7 33188)]

/-- A table knowing just the virtual root. -/
def tblRootOnly : Table := [(1, rootAttrs)]

/-- A tree with three files a, b, c (inodes 10, 11, 12) under the root. -/
def fs3 : RealFS :=
  [(["r"], metaOf 5 16877), (["r", "a"], metaOf 10 33188),
   (["r", "b"], metaOf 11 33188), (["r", "c"], metaOf 12 33188)]

/-- Claim C3 as amended: ReadDirectory enumerates the real directory
scan (which contains no "." or ".." entries) into a stable-ordered
sequence and returns the entries at enumeration positions ≥ offset up
to the buffer capacity, each tagged next_offset = offset + position + 1;
tags strictly increase within a call; and after a truncated call at
offset 0, a call at the returned next_offset returns exactly the
remaining entries — none skipped and none repeated.  (Resuming a
truncated call whose own offset was positive does skip entries, because
the tag adds the call's offset to the absolute position — see the
counterexample.)  In the one-file scenario the reply is just
[(7, 1, file, "f.txt")], with no "." or ".." entries. -/
theorem readdir_spec_amended :
    (∀ fs tbl ino off cap attrs es,
      lookupT tbl ino = some attrs → attrs.kind = .directory →
      collectEntries (childrenFS fs attrs.real_path) = some es →
      readdir fs tbl ino off cap =
        some (.list ((((es.enumFrom 0).filter
            fun p => off ≤ (p.1 : Int)).take cap).map
          fun p => (p.2.1, off + p.1 + 1, p.2.2.1, p.2.2.2)))) ∧
    (∀ fs tbl ino off cap L, readdir fs tbl ino off cap = some (.list L) →
      List.Chain' (fun x y => x.2.1 < y.2.1) L) ∧
    (∀ fs tbl ino k c L1 L2 L3,
      readdir fs tbl ino 0 k = some (.list L1) →
      readdir fs tbl ino (k : Int) c = some (.list L2) →
      readdir fs tbl ino 0 (k + c) = some (.list L3) →
      L1.map (fun x => (x.1, x.2.2)) ++ L2.map (fun x => (x.1, x.2.2)) =
        L3.map (fun x => (x.1, x.2.2))) ∧
    readdir fsScen tblRootOnly 1 0 100 =
      some (.list [(7, 1, .file, "f.txt")]) := by
  refine ⟨?chr, ?mono, ?resume, rfl⟩
  case chr =>
    intro fs tbl ino off cap attrs es h hdir hcoll
    unfold readdir
    rw [h]
    dsimp only
    rw [if_pos hdir, hcoll]
    dsimp only
    rw [addLoop_eq]
  case mono =>
    intro fs tbl ino off cap L hx
    obtain ⟨attrs, es, _, _, _, hL⟩ := readdir_list_inv fs tbl ino off cap L hx
    rw [hL]
    exact addLoop_chain es 0 off cap
  case resume =>
    intro fs tbl ino k c L1 L2 L3 h1 h2 h3
    obtain ⟨a1, e1, ha1, _, hc1, hL1⟩ := readdir_list_inv _ _ _ _ _ _ h1
    obtain ⟨a2, e2, ha2, _, hc2, hL2⟩ := readdir_list_inv _ _ _ _ _ _ h2
    obtain ⟨a3, e3, ha3, _, hc3, hL3⟩ := readdir_list_inv _ _ _ _ _ _ h3
    rw [ha1] at ha2 ha3
    obtain rfl : a1 = a2 := by injection ha2
    obtain rfl : a1 = a3 := by injection ha3
    rw [hc1] at hc2 hc3
    obtain rfl : e1 = e2 := by injection hc2
    obtain rfl : e1 = e3 := by injection hc3
    rw [hL1, hL2, hL3]
    exact addLoop_resume_from_zero e1 k c

/-- Witness for readdir_spec_amended: the characterization applied to
the one-file scenario tree. -/
theorem readdir_spec_amended_witness :
    readdir fsScen tblRootOnly 1 0 100 =
      some (.list (((([(7, FileKind.file, "f.txt")].enumFrom 0).filter
          fun p => (0 : Int) ≤ (p.1 : Int)).take 100).map
        fun p => (p.2.1, 0 + p.1 + 1, p.2.2.1, p.2.2.2))) :=
  readdir_spec_amended.1 fsScen tblRootOnly 1 0 100 rootAttrs
    [(7, .file, "f.txt")] rfl rfl rfl

/-- Claim C3, counterexample.  First conjunct: a directory holding one
file replies only [(7, 1, file, "f.txt")] — there are no "." or ".."
entries, because the real directory scan produces none.  Second and
third conjuncts: with three files a, b, c a truncated call at offset 1
returns entry "b" (absolute position 1) tagged next_offset
1 + 1 + 1 = 3; the subsequent call with that offset 3 returns nothing,
so entry "c" at position 2 is skipped — resumption loses entries
whenever the truncated call's offset was positive. -/
theorem readdir_claim_counterexample :
    readdir fsScen tblRootOnly 1 0 100 =
      some (.list [(7, 1, .file, "f.txt")]) ∧
    readdir fs3 tblRootOnly 1 1 1 = some (.list [(11, 3, .file, "b")]) ∧
    readdir fs3 tblRootOnly 1 3 100 = some (.list []) :=
  ⟨rfl, rfl, rfl⟩

end Cairn
